import Mathlib

/-!
Shallow embedding of the plugin-list persistor
(`src/extensions/gamebryo-plugin-management/src/util/PluginPersistor.ts`).

The persistor keeps an in-memory map from plugin name to
`\x7b enabled, loadOrder \x7d` and syncs it with two on-disk text files,
`loadorder.txt` and `plugins.txt`.  JavaScript strings are modelled as
Lean `String` (character lists); the `iconv-lite` `encode`/`decode` pair
is the identity on the characters we reason about, so file contents are
plain strings.  Asynchronous file I/O is modelled by passing the outcome
of each read/write explicitly; observable side effects (file writes,
error reports, reset-callback invocations, scheduled refreshes, host
callbacks) are collected in an event list.
-/

/-- `ILoadOrder`: per-plugin record with `enabled` and `loadOrder` fields. -/
structure ILoadOrder where
  enabled : Bool
  loadOrder : Int
deriving Repr, DecidableEq

/-- `IPluginMap`: the JS object mapping plugin name to `ILoadOrder`,
modelled as an insertion-ordered association list (JS objects preserve
insertion order of string keys and have pairwise-distinct keys). -/
abbrev IPluginMap := List (String × ILoadOrder)

/-- `PluginFormat`: `'original' | 'fallout4'`. -/
inductive PluginFormat where
  | original
  | fallout4
deriving Repr, DecidableEq, BEq

/-- `const retryCount = 3`. -/
def retryCount : Nat := 3

/-- Observable side effects of persistor operations. -/
inductive Event where
  | wroteFile (name : String) (content : String)
  | readFile (name : String)
  | errorReport (message : String)
  | resetCalled
  | scheduledRefresh (ms : Nat)
  | cbCalled (error : Option String) (result : Option String)
deriving Repr, DecidableEq

/-- Outcome of one `fs.readFileAsync` call: file contents, or a rejection
carrying the error `code` (`"ENOENT"` for a missing file). -/
inductive FileRead where
  | ok (data : String)
  | err (code : String)
deriving Repr, DecidableEq

/-- The pair of read outcomes available to one deserialize attempt. -/
structure Reads where
  loadorder : FileRead
  plugins : FileRead
deriving Repr, DecidableEq

/-- The persistor's mutable fields relevant to the claims: `mPlugins`,
`mRetryCounter`, `mLoaded`, `mFailed`, whether `mResetCallback` is set,
and the game context `mPluginFormat` / `mNativePlugins` / whether
`mPluginPath` is defined. -/
structure PState where
  plugins : IPluginMap
  retryCounter : Nat
  loaded : Bool
  failed : Bool
  hasResetCallback : Bool
  pluginFormat : PluginFormat
  nativePlugins : List String
  pathSet : Bool
deriving Repr, DecidableEq

/-- First-match lookup in the association list: JS `map[key]`. -/
def mapFind (m : IPluginMap) (k : String) : Option ILoadOrder :=
  match m with
  | [] => none
  | ent :: rest => if ent.1 = k then some ent.2 else mapFind rest k

/-- `this.mPlugins[name].enabled` (the name is always a present key at the
call sites, so the default is never observable). -/
def enabledOf (p : IPluginMap) (k : String) : Bool :=
  ((mapFind p k).getD ⟨false, 0⟩).enabled

/-- `this.mPlugins[name].loadOrder` (same remark as `enabledOf`). -/
def loValue (p : IPluginMap) (k : String) : Int :=
  ((mapFind p k).getD ⟨false, 0⟩).loadOrder

/-- Stable insertion into a list sorted ascending by `loadOrder`. -/
def insertLO (p : IPluginMap) (k : String) : List String → List String
  | [] => [k]
  | x :: rest =>
    if loValue p k ≤ loValue p x then k :: x :: rest else x :: insertLO p k rest

/-- `keys.sort((lhs, rhs) => plugins[lhs].loadOrder - plugins[rhs].loadOrder)`:
stable sort ascending by `loadOrder` (insertion sort; agrees with the JS
engine sort on every comparator-consistent input). -/
def sortKeys (p : IPluginMap) (ks : List String) : List String :=
  ks.foldr (insertLO p) []

/-- `String.prototype.toLowerCase()`: lower-case the characters
(ASCII, which covers plugin file names). -/
def strToLower (s : String) : String :=
  String.mk (s.data.map Char.toLower)

/-- `Object.keys(this.mPlugins).filter(name => !this.mNativePlugins.has(name.toLowerCase()))`. -/
def nonNativeKeys (p : IPluginMap) (native : List String) : List String :=
  (p.map Prod.fst).filter (fun name => !(native.contains (strToLower name)))

/-- The `sorted` list built at the start of `doSerialize`. -/
def sortedKeys (p : IPluginMap) (native : List String) : List String :=
  sortKeys p (nonNativeKeys p native)

/-- `toPluginListOriginal`: keep only the enabled plugins. -/
def toPluginListOriginal (p : IPluginMap) (input : List String) : List String :=
  input.filter (fun name => enabledOf p name)

/-- `toPluginListFallout4`: prefix enabled plugin names with `*`
(`util.getSafe(this.mPlugins, [name, 'enabled'], false)`). -/
def toPluginListFallout4 (p : IPluginMap) (input : List String) : List String :=
  input.map (fun name => if enabledOf p name then "*" ++ name else name)

/-- `toPluginList`: dispatch on the plugin format. -/
def toPluginList (fmt : PluginFormat) (p : IPluginMap) (input : List String) : List String :=
  match fmt with
  | .original => toPluginListOriginal p input
  | .fallout4 => toPluginListFallout4 p input

/-- `Array.prototype.join('\r\n')`. -/
def joinRN : List String → String
  | [] => ""
  | [x] => x
  | x :: rest => x ++ "\r\n" ++ joinRN rest

/-- The generated-by comment line written at the top of both files. -/
def genHeader : String := "# Automatically generated by Vortex"

/-- Content written to `loadorder.txt`:
`'# Automatically generated by Vortex\r\n' + sorted.join('\r\n')`. -/
def loadorderContent (p : IPluginMap) (native : List String) : String :=
  genHeader ++ "\r\n" ++ joinRN (sortedKeys p native)

/-- Content written to `plugins.txt`:
`'# Automatically generated by Vortex\r\n' + filtered.join('\r\n')`. -/
def pluginsContent (fmt : PluginFormat) (p : IPluginMap) (native : List String) : String :=
  genHeader ++ "\r\n" ++ joinRN (toPluginList fmt p (sortedKeys p native))

/-- `reportError`: invoke `mOnError` and latch `mFailed`, but only on the
first failure after a success (edge-triggered). -/
def reportError (msg : String) (s : PState) : PState × List Event :=
  if s.failed = false then ({ s with failed := true }, [Event.errorReport msg])
  else (s, [])

/-- `doSerialize`: build the sorted key list, write `loadorder.txt` then
`plugins.txt`.  `wLoad` / `wPlug` give the outcomes of the two
`fs.writeFileAsync` calls (`true` = resolved).  A failed write skips the
rest of the chain and lands in the `catch` (`reportError`); a completed
pass clears `mFailed`.  The transient `mSerializing` flag is set and
cleared within the same pass and is not part of the observable state. -/
def doSerialize (wLoad wPlug : Bool) (s : PState) : PState × List Event :=
  if s.pathSet = false then (s, [])
  else if wLoad = false then reportError "failed to write plugin list" s
  else
    let e0 := [Event.wroteFile "loadorder.txt" (loadorderContent s.plugins s.nativePlugins)]
    if wPlug = false then
      let r := reportError "failed to write plugin list" s
      (r.1, e0 ++ r.2)
    else
      ({ s with failed := false },
        e0 ++ [Event.wroteFile "plugins.txt"
                 (pluginsContent s.pluginFormat s.plugins s.nativePlugins)])

/-- `serialize`: no-op before the initial load completed, otherwise the
write pass is enqueued on the sequential queue (modelled as running it). -/
def serialize (wLoad wPlug : Bool) (s : PState) : PState × List Event :=
  if s.loaded = false then (s, []) else doSerialize wLoad wPlug s

/-- Extend the first chunk of a split result with one more character. -/
def consHead (c : Char) : List (List Char) → List (List Char)
  | l :: ls => (c :: l) :: ls
  | [] => [[c]]

/-- Split on the regular expression `/\r?\n/`: a `\r\n` pair or a lone
`\n` ends a line; a lone `\r` (not followed by `\n`) stays in the line. -/
def splitRN : List Char → List (List Char)
  | [] => [[]]
  | [c] => if c = '\n' then [[], []] else [[c]]
  | c :: c2 :: rest =>
    if c = '\n' then [] :: splitRN (c2 :: rest)
    else if c = '\r' ∧ c2 = '\n' then [] :: splitRN rest
    else consHead c (splitRN (c2 :: rest))

/-- The filter in `filterFileData`:
`!value.startsWith('#') && (value.length > 0)`. -/
def keepLine (l : List Char) : Bool :=
  match l with
  | [] => false
  | c :: _ => c ≠ '#'

/-- `filterFileData`: split the file into lines and drop comment lines and
empty lines (the `plugins` flag is unused in the source as well). -/
def filterFileData (input : String) (plugins : Bool) : List String :=
  ((splitRN input.data).filter keepLine).map (fun l => String.mk l)

/-- `key[0] === '*'` (false on the empty string, as in JS). -/
def strBegins (c : Char) (s : String) : Bool :=
  match s.data with
  | [] => false
  | c2 :: _ => c2 = c

/-- `key.slice(1)`. -/
def strDrop1 (s : String) : String :=
  String.mk (s.data.drop 1)

/-- The `keyEnabled` computation in `initFromKeyList`:
`enabled && ((this.mPluginFormat === 'original') || (key[0] === '*'))`
(evaluated on the raw key, before the `*` marker is stripped). -/
def procEnabled (fmt : PluginFormat) (enabled : Bool) (key : String) : Bool :=
  enabled && ((fmt == PluginFormat.original) || strBegins '*' key)

/-- The key after `*`-stripping:
`if ((this.mPluginFormat === 'fallout4') && (key[0] === '*')) key = key.slice(1)`. -/
def procKey (fmt : PluginFormat) (key : String) : String :=
  if (fmt == PluginFormat.fallout4) && strBegins '*' key then strDrop1 key else key

/-- `plugins[key].enabled = keyEnabled` (in-place update of the entry,
position preserved). -/
def mapUpdate (m : IPluginMap) (k : String) (b : Bool) : IPluginMap :=
  m.map (fun ent => if ent.1 = k then (ent.1, ⟨b, ent.2.loadOrder⟩) else ent)

/-- One iteration of the `keys.forEach` loop in `initFromKeyList`; the
accumulator carries the map under construction and `loadOrderPos`. -/
def initStep (fmt : PluginFormat) (native : List String) (enabled : Bool)
    (acc : IPluginMap × Nat) (key : String) : IPluginMap × Nat :=
  let keyEnabled := procEnabled fmt enabled key
  let key2 := procKey fmt key
  if native.contains (strToLower key2) then acc
  else
    match mapFind acc.1 key2 with
    | some _ => (mapUpdate acc.1 key2 keyEnabled, acc.2)
    | none => (acc.1 ++ [(key2, ⟨keyEnabled, (acc.2 : Int)⟩)], acc.2 + 1)

/-- `initFromKeyList(plugins, keys, enabled)`: `loadOrderPos` starts at the
current size of the map and advances on each fresh insertion. -/
def initFromKeyList (fmt : PluginFormat) (native : List String)
    (p : IPluginMap) (keys : List String) (enabled : Bool) : IPluginMap :=
  (keys.foldl (initStep fmt native enabled) (p, p.length)).1

/-- Phase one of `deserialize`: for `original`, read `loadorder.txt`, seed
`newPlugins` from its lines with `enabled = false`, then read
`plugins.txt`; for `fallout4`, read `plugins.txt` directly.  Returns
either `(newPlugins, pluginsTxtData)` or the failing read's error code,
together with the reads performed. -/
def phaseOne (fmt : PluginFormat) (native : List String) (rd : Reads) :
    ((IPluginMap × String) ⊕ String) × List Event :=
  match fmt with
  | .original =>
    match rd.loadorder with
    | .err c => (.inr c, [Event.readFile "loadorder.txt"])
    | .ok data =>
      let keys := filterFileData data false
      let np := initFromKeyList .original native [] keys false
      match rd.plugins with
      | .err c => (.inr c, [Event.readFile "loadorder.txt", Event.readFile "plugins.txt"])
      | .ok d => (.inl (np, d), [Event.readFile "loadorder.txt", Event.readFile "plugins.txt"])
  | .fallout4 =>
    match rd.plugins with
    | .err c => (.inr c, [Event.readFile "plugins.txt"])
    | .ok d => (.inl ([], d), [Event.readFile "plugins.txt"])

/-- The success continuation of `deserialize`: fold the `plugins.txt`
lines into `newPlugins`, install the new table, mark loaded, fire the
reset callback (which also resets the retry counter — only when a
callback is registered), clear `mFailed`. -/
def deserializeSuccess (data : String) (np : IPluginMap) (s : PState) : PState × List Event :=
  let final := initFromKeyList s.pluginFormat s.nativePlugins np (filterFileData data true) true
  ({ s with
      plugins := final
      loaded := true
      retryCounter := if s.hasResetCallback then retryCount else s.retryCounter
      failed := false },
    if s.hasResetCallback then [Event.resetCalled] else [])

/-- The `catch` handler of `deserialize`: `ENOENT` just marks the store
loaded; otherwise consume the retry budget and schedule a delayed retry,
or — budget exhausted — mark loaded and report the error once. -/
def deserializeCatch (c : String) (s : PState) : PState × List Event :=
  if c = "ENOENT" then ({ s with loaded := true }, [])
  else if 0 < s.retryCounter then
    ({ s with retryCounter := s.retryCounter - 1 }, [Event.scheduledRefresh 100])
  else
    reportError "failed to read plugin list" { s with loaded := true }

/-- One attempt of `deserialize(retry)`.  `Sum.inr evs` signals the
zero-length-`plugins.txt` workaround: the attempt returns
`this.deserialize(true)` and the caller must run a fresh attempt. -/
def deserializeAttempt (retry : Bool) (rd : Reads) (s : PState) :
    (PState × List Event) ⊕ List Event :=
  match phaseOne s.pluginFormat s.nativePlugins rd with
  | (.inr c, evs) =>
    let r := deserializeCatch c s
    .inl (r.1, evs ++ r.2)
  | (.inl (np, data), evs) =>
    if data.length = 0 ∧ retry = false then .inr evs
    else
      let r := deserializeSuccess data np s
      .inl (r.1, evs ++ r.2)

/-- `deserialize()` (the `retry = false` entry point): no-op without a
game context; on a zero-length `plugins.txt` the whole attempt is rerun
once with `retry = true`, re-reading the files (`retryRd`). -/
def deserializeRun (rd retryRd : Reads) (s : PState) : PState × List Event :=
  if s.pathSet = false then (s, [])
  else
    match deserializeAttempt false rd s with
    | .inl r => r
    | .inr evs =>
      match deserializeAttempt true retryRd s with
      | .inl r => (r.1, evs ++ r.2)
      | .inr evs2 => (s, evs ++ evs2)
      -- the second `.inr` case is unreachable: with `retry = true` the
      -- zero-length workaround is not taken

/-- `disable()`: clear the table, mark loaded, fire the reset callback
(resetting the retry counter only when a callback is registered). -/
def disable (s : PState) : PState × List Event :=
  if s.hasResetCallback then
    ({ s with plugins := [], loaded := true, retryCounter := retryCount },
      [Event.resetCalled])
  else
    ({ s with plugins := [], loaded := true }, [])

/-!
## JSON model

`getItem` / `setItem` go through `JSON.stringify` / `JSON.parse`.  The
grammar below follows ECMA-404; numbers keep their raw lexeme.  The
parser is recursive descent over the character list with a fuel
parameter bounding the recursion depth (the concrete fuel passed by
`jsonParse` exceeds any possible nesting depth of the input).
-/

/-- A parsed JSON value. -/
inductive Json where
  | jnull
  | jbool (b : Bool)
  | jnum (raw : String)
  | jstr (s : String)
  | jarr (elems : List Json)
  | jobj (fields : List (String × Json))
deriving Repr

/-- The `U+007B` opening-brace character. -/
def braceL : Char := Char.ofNat 123

/-- The `U+007D` closing-brace character. -/
def braceR : Char := Char.ofNat 125

/-- JSON insignificant whitespace. -/
def jsonWs (c : Char) : Bool :=
  c = ' ' ∨ c = '\t' ∨ c = '\n' ∨ c = '\r'

/-- Skip leading JSON whitespace. -/
def skipWs : List Char → List Char
  | [] => []
  | c :: rest => if jsonWs c then skipWs rest else c :: rest

/-- Hexadecimal digit test. -/
def isHexDig (c : Char) : Bool :=
  c.isDigit ∨ ('a' ≤ c ∧ c ≤ 'f') ∨ ('A' ≤ c ∧ c ≤ 'F')

/-- Hexadecimal digit value. -/
def hexVal (c : Char) : Nat :=
  if c.isDigit then c.toNat - 48
  else if 'a' ≤ c ∧ c ≤ 'f' then c.toNat - 87
  else c.toNat - 55

/-- Parse exactly four hex digits. -/
def parseHex4 (l : List Char) : Option (Nat × List Char) :=
  match l with
  | a :: b :: c :: d :: rest =>
    if isHexDig a ∧ isHexDig b ∧ isHexDig c ∧ isHexDig d then
      some (((hexVal a * 16 + hexVal b) * 16 + hexVal c) * 16 + hexVal d, rest)
    else none
  | _ => none

/-- Body of a JSON string literal, after the opening quote; handles the
escape sequences of ECMA-404 and rejects raw control characters. -/
def parseJStr (fuel : Nat) (acc : List Char) (l : List Char) : Option (String × List Char) :=
  match fuel with
  | 0 => none
  | fuel + 1 =>
    match l with
    | [] => none
    | c :: rest =>
      if c = '"' then some (String.mk acc.reverse, rest)
      else if c = '\\' then
        match rest with
        | [] => none
        | e :: rest2 =>
          if e = '"' ∨ e = '\\' ∨ e = '/' then parseJStr fuel (e :: acc) rest2
          else if e = 'b' then parseJStr fuel (Char.ofNat 8 :: acc) rest2
          else if e = 'f' then parseJStr fuel (Char.ofNat 12 :: acc) rest2
          else if e = 'n' then parseJStr fuel ('\n' :: acc) rest2
          else if e = 'r' then parseJStr fuel ('\r' :: acc) rest2
          else if e = 't' then parseJStr fuel ('\t' :: acc) rest2
          else if e = 'u' then
            match parseHex4 rest2 with
            | some (n, rest3) => parseJStr fuel (Char.ofNat n :: acc) rest3
            | none => none
          else none
      else if c.toNat < 32 then none
      else parseJStr fuel (c :: acc) rest

/-- Longest digit prefix. -/
def takeDigits (l : List Char) : List Char × List Char :=
  List.span Char.isDigit l

/-- Lex a JSON number, returning its raw lexeme. -/
def parseJNum (l : List Char) : Option (String × List Char) :=
  let (neg, l1) := match l with
    | '-' :: r => (['-'], r)
    | _ => (([] : List Char), l)
  match l1 with
  | [] => none
  | c :: r =>
    if ¬ c.isDigit then none
    else
      let (ip, l2) := if c = '0' then ([c], r) else takeDigits l1
      let (fp, l3) := match l2 with
        | '.' :: r2 =>
          let (ds, l3) := takeDigits r2
          if ds = [] then (([] : List Char), l2) else ('.' :: ds, l3)
        | _ => (([] : List Char), l2)
      let (ep, l4) := match l3 with
        | 'e' :: r3 =>
          let (sgn, r4) := match r3 with
            | '+' :: r5 => (['+'], r5)
            | '-' :: r5 => (['-'], r5)
            | _ => (([] : List Char), r3)
          let (ds, l4) := takeDigits r4
          if ds = [] then (([] : List Char), l3) else ('e' :: (sgn ++ ds), l4)
        | 'E' :: r3 =>
          let (sgn, r4) := match r3 with
            | '+' :: r5 => (['+'], r5)
            | '-' :: r5 => (['-'], r5)
            | _ => (([] : List Char), r3)
          let (ds, l4) := takeDigits r4
          if ds = [] then (([] : List Char), l3) else ('E' :: (sgn ++ ds), l4)
        | _ => (([] : List Char), l3)
      some (String.mk (neg ++ ip ++ fp ++ ep), l4)

/-- Match a literal keyword suffix. -/
def parseLit (lit : List Char) (l : List Char) : Option (List Char) :=
  if lit.isPrefixOf l then some (l.drop lit.length) else none

mutual

/-- Parse one JSON value (leading whitespace already skipped). -/
def parseVal (fuel : Nat) (l : List Char) : Option (Json × List Char) :=
  match fuel with
  | 0 => none
  | fuel + 1 =>
    match l with
    | [] => none
    | c :: rest =>
      if c = '"' then
        match parseJStr (rest.length + 1) [] rest with
        | some (s, r) => some (Json.jstr s, r)
        | none => none
      else if c = braceL then
        match skipWs rest with
        | c2 :: r2 => if c2 = braceR then some (Json.jobj [], r2) else parseObjItems fuel (c2 :: r2)
        | [] => none
      else if c = '[' then
        match skipWs rest with
        | c2 :: r2 => if c2 = ']' then some (Json.jarr [], r2) else parseArrItems fuel (c2 :: r2)
        | [] => none
      else if c = 't' then
        match parseLit ['r', 'u', 'e'] rest with
        | some r => some (Json.jbool true, r)
        | none => none
      else if c = 'f' then
        match parseLit ['a', 'l', 's', 'e'] rest with
        | some r => some (Json.jbool false, r)
        | none => none
      else if c = 'n' then
        match parseLit ['u', 'l', 'l'] rest with
        | some r => some (Json.jnull, r)
        | none => none
      else
        match parseJNum (c :: rest) with
        | some (s, r) => some (Json.jnum s, r)
        | none => none

/-- Parse the (nonempty) element list of a JSON array, up to `]`. -/
def parseArrItems (fuel : Nat) (l : List Char) : Option (Json × List Char) :=
  match fuel with
  | 0 => none
  | fuel + 1 =>
    match parseVal fuel l with
    | none => none
    | some (v, r) =>
      match skipWs r with
      | ',' :: r2 =>
        match parseArrItems fuel (skipWs r2) with
        | some (Json.jarr vs, r3) => some (Json.jarr (v :: vs), r3)
        | _ => none
      | ']' :: r2 => some (Json.jarr [v], r2)
      | _ => none

/-- Parse the (nonempty) member list of a JSON object, up to the closing
brace. -/
def parseObjItems (fuel : Nat) (l : List Char) : Option (Json × List Char) :=
  match fuel with
  | 0 => none
  | fuel + 1 =>
    match l with
    | '"' :: r =>
      match parseJStr (r.length + 1) [] r with
      | none => none
      | some (k, r1) =>
        match skipWs r1 with
        | ':' :: r2 =>
          match parseVal fuel (skipWs r2) with
          | none => none
          | some (v, r3) =>
            match skipWs r3 with
            | ',' :: r4 =>
              match parseObjItems fuel (skipWs r4) with
              | some (Json.jobj fs, r5) => some (Json.jobj ((k, v) :: fs), r5)
              | _ => none
            | c5 :: r5 => if c5 = braceR then some (Json.jobj [(k, v)], r5) else none
            | [] => none
        | _ => none
    | _ => none

end

/-- `JSON.parse`: parse one value and require only trailing whitespace. -/
def jsonParse (s : String) : Option Json :=
  match parseVal (s.length + 2) (skipWs s.data) with
  | some (j, rest) => if skipWs rest = [] then some j else none
  | none => none

/-- Decimal digits of a natural number. -/
def natDigits (fuel n : Nat) : List Char :=
  match fuel with
  | 0 => []
  | fuel + 1 =>
    if n < 10 then [Char.ofNat (48 + n)]
    else natDigits fuel (n / 10) ++ [Char.ofNat (48 + n % 10)]

/-- Leading integer value of a number lexeme (used when a parsed JSON
number is stored into the typed table; fractional parts truncate). -/
def intOfLex (s : String) : Int :=
  match s.data with
  | '-' :: ds => -(Int.ofNat (((takeDigits ds).1).foldl (fun a c => a * 10 + (c.toNat - 48)) 0))
  | ds => Int.ofNat (((takeDigits ds).1).foldl (fun a c => a * 10 + (c.toNat - 48)) 0)

/-- Field lookup on a JSON object. -/
def jsonField (j : Json) (name : String) : Option Json :=
  match j with
  | .jobj fields => (fields.find? (fun f => f.1 == name)).map (fun f => f.2)
  | _ => none

/-- Read a boolean field, defaulting to `false` (models how the untyped
value stored by `this.mPlugins = JSON.parse(value)` is consumed by the
later reads of `.enabled`, which use `false` as the fallback). -/
def jsonBoolD (j : Option Json) : Bool :=
  match j with
  | some (.jbool b) => b
  | _ => false

/-- Read a numeric field, defaulting to `0` (same remark as `jsonBoolD`,
for the later reads of `.loadOrder`). -/
def jsonIntD (j : Option Json) : Int :=
  match j with
  | some (.jnum raw) => intOfLex raw
  | _ => 0

/-- One table entry read out of a parsed JSON value. -/
def entryOfJson (j : Json) : ILoadOrder :=
  { enabled := jsonBoolD (jsonField j "enabled"),
    loadOrder := jsonIntD (jsonField j "loadOrder") }

/-- The typed view of the untyped assignment
`this.mPlugins = JSON.parse(value)`: the fields of a parsed object
become the table entries (in JSON order); a non-object parse result
yields a table with no usable entries. -/
def pluginsOfJson (j : Json) : IPluginMap :=
  match j with
  | .jobj fields => fields.map (fun f => (f.1, entryOfJson f.2))
  | _ => []

/-- A single-character JSON escape expansion used by the stringifier. -/
def jsonEscapeChar (c : Char) : String :=
  if c = '"' then "\\\""
  else if c = '\\' then "\\\\"
  else if c = Char.ofNat 8 then "\\b"
  else if c = Char.ofNat 12 then "\\f"
  else if c = '\n' then "\\n"
  else if c = '\r' then "\\r"
  else if c = '\t' then "\\t"
  else if c.toNat < 32 then
    "\\u00" ++ String.mk [Char.ofNat (if c.toNat / 16 < 10 then 48 + c.toNat / 16 else 87 + c.toNat / 16),
                          Char.ofNat (if c.toNat % 16 < 10 then 48 + c.toNat % 16 else 87 + c.toNat % 16)]
  else String.singleton c

/-- `JSON.stringify` of a string. -/
def jsonQuote (s : String) : String :=
  "\"" ++ String.join (s.data.map jsonEscapeChar) ++ "\""

/-- `Array.prototype.join(',')`. -/
def joinComma : List String → String
  | [] => ""
  | [x] => x
  | x :: rest => x ++ "," ++ joinComma rest

/-- `JSON.stringify` of one table entry. -/
def jsonStringifyEntry (k : String) (e : ILoadOrder) : String :=
  jsonQuote k ++ ":" ++ String.singleton braceL
    ++ "\"enabled\":" ++ (if e.enabled then "true" else "false")
    ++ ",\"loadOrder\":" ++ toString e.loadOrder ++ String.singleton braceR

/-- `JSON.stringify(this.mPlugins)`: fields in insertion order. -/
def jsonStringifyMap (p : IPluginMap) : String :=
  String.singleton braceL
    ++ joinComma (p.map (fun ent => jsonStringifyEntry ent.1 ent.2))
    ++ String.singleton braceR

/-- `getItem(key, cb?)`: stringify the whole table, invoke the callback
(when supplied) with `(null, res)`, and resolve with `res`.  The store
state is returned untouched. -/
def getItem (key : String) (cbPresent : Bool) (s : PState) :
    PState × List Event × String :=
  let res := jsonStringifyMap s.plugins
  (s, (if cbPresent then [Event.cbCalled none (some res)] else []), res)

/-- `setItem(key, value, cb?)`: `this.mPlugins = JSON.parse(value)` —
`JSON.parse` throws synchronously on malformed input (modelled by
`Except.error`, before any state change) — then `serialize()` runs and
the callback is invoked with `null`. -/
def setItem (key value : String) (wLoad wPlug : Bool) (cbPresent : Bool) (s : PState) :
    Except String (PState × List Event) :=
  match jsonParse value with
  | none => .error "SyntaxError: invalid JSON"
  | some j =>
    let s1 := { s with plugins := pluginsOfJson j }
    let r := serialize wLoad wPlug s1
    .ok (r.1, r.2 ++ (if cbPresent then [Event.cbCalled none none] else []))

/-!
## Basic lemmas: strings, line splitting, sorting, lookup
-/

theorem strMk_data (s : String) : String.mk s.data = s := by
  cases s
  rfl

theorem consHead_ne_nil (c : Char) (ls : List (List Char)) : consHead c ls ≠ [] := by
  cases ls <;> simp [consHead]

theorem splitRN_nil : splitRN [] = [[]] := rfl

theorem splitRN_cons_nl (rest : List Char) :
    splitRN ('\n' :: rest) = [] :: splitRN rest := by
  cases rest <;> simp [splitRN]

theorem splitRN_cons_crlf (rest : List Char) :
    splitRN ('\r' :: '\n' :: rest) = [] :: splitRN rest := by
  simp [splitRN]

theorem splitRN_cons_other (c : Char) (rest : List Char)
    (h1 : c ≠ '\r') (h2 : c ≠ '\n') :
    splitRN (c :: rest) = consHead c (splitRN rest) := by
  cases rest <;> simp [splitRN, consHead, h1, h2]

theorem splitRN_ne_nil (l : List Char) : splitRN l ≠ [] := by
  match l with
  | [] => simp [splitRN]
  | [c] =>
    rw [splitRN]
    split <;> simp
  | c :: c2 :: rest =>
    rw [splitRN]
    split
    · simp
    · split
      · simp
      · exact consHead_ne_nil c _

theorem splitRN_no_newline (l : List Char)
    (h : ∀ c ∈ l, c ≠ '\r' ∧ c ≠ '\n') : splitRN l = [l] := by
  induction l with
  | nil => exact splitRN_nil
  | cons c rest ih =>
    have hc := h c (by simp)
    rw [splitRN_cons_other c rest hc.1 hc.2]
    rw [ih (fun x hx => h x (by simp [hx]))]
    rfl

theorem splitRN_crlf (l rest : List Char)
    (h : ∀ c ∈ l, c ≠ '\r' ∧ c ≠ '\n') :
    splitRN (l ++ '\r' :: '\n' :: rest) = l :: splitRN rest := by
  induction l with
  | nil => exact splitRN_cons_crlf rest
  | cons c l2 ih =>
    have hc := h c (by simp)
    rw [List.cons_append, splitRN_cons_other c _ hc.1 hc.2,
      ih (fun x hx => h x (by simp [hx]))]
    rfl

theorem splitRN_joinRN (names : List String) (hne : names ≠ [])
    (h : ∀ n ∈ names, ∀ c ∈ n.data, c ≠ '\r' ∧ c ≠ '\n') :
    splitRN (joinRN names).data = names.map String.data := by
  induction names with
  | nil => exact absurd rfl hne
  | cons n rest ih =>
    cases rest with
    | nil =>
      simp only [joinRN, List.map]
      exact splitRN_no_newline n.data (h n (by simp))
    | cons m rest2 =>
      have : joinRN (n :: m :: rest2) = n ++ "\r\n" ++ joinRN (m :: rest2) := rfl
      rw [this]
      have hdata : (n ++ "\r\n" ++ joinRN (m :: rest2)).data
          = n.data ++ '\r' :: '\n' :: (joinRN (m :: rest2)).data := by
        rw [String.data_append, String.data_append]
        simp
      rw [hdata, splitRN_crlf n.data _ (h n (by simp)),
        ih (by simp) (fun x hx => h x (by simp [hx]))]
      rfl

theorem keepLine_true_of (l : List Char) (hne : l ≠ [])
    (hh : l.head? ≠ some '#') : keepLine l = true := by
  cases l with
  | nil => exact absurd rfl hne
  | cons c rest =>
    have hc : c ≠ '#' := by
      intro h
      exact hh (by simp [List.head?, h])
    simp [keepLine, hc]

/-- A plugin name survives the line-based file format unchanged:
nonempty, no CR/LF characters, not beginning with `#`. -/
def lineSafe (n : String) : Prop :=
  n.data ≠ [] ∧ n.data.head? ≠ some '#' ∧ ∀ c ∈ n.data, c ≠ '\r' ∧ c ≠ '\n'

theorem filterFileData_header_join (names : List String) (b : Bool)
    (h : ∀ n ∈ names, lineSafe n) :
    filterFileData (genHeader ++ "\r\n" ++ joinRN names) b = names := by
  have hdata : (genHeader ++ "\r\n" ++ joinRN names).data
      = genHeader.data ++ '\r' :: '\n' :: (joinRN names).data := by
    rw [String.data_append, String.data_append]
    rfl
  have hgen : ∀ c ∈ genHeader.data, c ≠ '\r' ∧ c ≠ '\n' := by decide
  have hsplit : splitRN (genHeader ++ "\r\n" ++ joinRN names).data
      = genHeader.data :: splitRN (joinRN names).data := by
    rw [hdata]
    exact splitRN_crlf _ _ hgen
  have hkeepgen : keepLine genHeader.data = false := by decide
  unfold filterFileData
  rw [hsplit]
  cases hnames : names with
  | nil =>
    subst hnames
    have h0 : splitRN (joinRN ([] : List String)).data = [[]] := splitRN_nil
    rw [h0, List.filter_cons_of_neg (by simp [hkeepgen]),
      List.filter_cons_of_neg (by simp [keepLine])]
    simp
  | cons n rest =>
    rw [← hnames]
    rw [splitRN_joinRN names (by simp [hnames]) (fun n hn => (h n hn).2.2)]
    rw [List.filter_cons_of_neg (by simp [hkeepgen])]
    have hfilter : (names.map String.data).filter keepLine = names.map String.data := by
      apply List.filter_eq_self.mpr
      intro a ha
      obtain ⟨nm, hnm, rfl⟩ := List.mem_map.mp ha
      exact keepLine_true_of _ ((h nm hnm).1) ((h nm hnm).2.1)
    rw [hfilter, List.map_map]
    have : (fun l => String.mk l) ∘ String.data = id := by
      funext s
      exact strMk_data s
    rw [this, List.map_id]

theorem insertLO_perm (p : IPluginMap) (k : String) (l : List String) :
    (insertLO p k l).Perm (k :: l) := by
  induction l with
  | nil => exact List.Perm.refl _
  | cons x rest ih =>
    rw [insertLO]
    split
    · exact List.Perm.refl _
    · exact (ih.cons x).trans (List.Perm.swap k x rest)

theorem sortKeys_perm (p : IPluginMap) (ks : List String) :
    (sortKeys p ks).Perm ks := by
  induction ks with
  | nil => exact List.Perm.refl _
  | cons k rest ih =>
    have : sortKeys p (k :: rest) = insertLO p k (sortKeys p rest) := rfl
    rw [this]
    exact (insertLO_perm p k _).trans (ih.cons k)

theorem insertLO_sorted (p : IPluginMap) (k : String) (l : List String)
    (h : l.Pairwise (fun a b => loValue p a ≤ loValue p b)) :
    (insertLO p k l).Pairwise (fun a b => loValue p a ≤ loValue p b) := by
  induction l with
  | nil => simp [insertLO]
  | cons x rest ih =>
    rw [insertLO]
    rw [List.pairwise_cons] at h
    split
    · rename_i hle
      refine List.Pairwise.cons ?_ (List.Pairwise.cons h.1 h.2)
      intro y hy
      rcases List.mem_cons.mp hy with rfl | hy2
      · exact hle
      · exact le_trans hle (h.1 y hy2)
    · rename_i hgt
      refine List.Pairwise.cons ?_ (ih h.2)
      intro y hy
      rcases List.mem_cons.mp ((insertLO_perm p k rest).mem_iff.mp hy) with rfl | hy2
      · exact le_of_not_le hgt
      · exact h.1 y hy2

theorem sortKeys_sorted (p : IPluginMap) (ks : List String) :
    (sortKeys p ks).Pairwise (fun a b => loValue p a ≤ loValue p b) := by
  induction ks with
  | nil => simp [sortKeys]
  | cons k rest ih => exact insertLO_sorted p k _ ih

theorem mem_nonNativeKeys (p : IPluginMap) (native : List String) (k : String) :
    k ∈ nonNativeKeys p native ↔ k ∈ p.map Prod.fst ∧ native.contains (strToLower k) = false := by
  unfold nonNativeKeys
  rw [List.mem_filter]
  simp

theorem nonNativeKeys_nodup (p : IPluginMap) (native : List String)
    (h : (p.map Prod.fst).Nodup) : (nonNativeKeys p native).Nodup :=
  h.filter _

theorem mem_sortedKeys (p : IPluginMap) (native : List String) (k : String) :
    k ∈ sortedKeys p native ↔ k ∈ nonNativeKeys p native :=
  (sortKeys_perm p _).mem_iff

theorem sortedKeys_nodup (p : IPluginMap) (native : List String)
    (h : (p.map Prod.fst).Nodup) : (sortedKeys p native).Nodup :=
  (sortKeys_perm p _).nodup_iff.mpr (nonNativeKeys_nodup p native h)

/-!
## Lemmas about `initFromKeyList`
-/

theorem mapFind_append_of_none (m n : IPluginMap) (k : String)
    (h : mapFind m k = none) : mapFind (m ++ n) k = mapFind n k := by
  induction m with
  | nil => rfl
  | cons ent rest ih =>
    rw [mapFind] at h
    rw [List.cons_append, mapFind]
    by_cases he : ent.1 = k
    · simp [he] at h
    · simp only [he, if_false] at h ⊢
      exact ih h

theorem mapFind_append_of_some (m n : IPluginMap) (k : String) (v : ILoadOrder)
    (h : mapFind m k = some v) : mapFind (m ++ n) k = some v := by
  induction m with
  | nil => simp [mapFind] at h
  | cons ent rest ih =>
    rw [mapFind] at h
    rw [List.cons_append, mapFind]
    by_cases he : ent.1 = k
    · simp only [he, if_true] at h ⊢
      exact h
    · simp only [he, if_false] at h ⊢
      exact ih h

theorem mapFind_singleton_ne (k q : String) (v : ILoadOrder) (h : q ≠ k) :
    mapFind [(q, v)] k = none := by
  simp [mapFind, h]

theorem mapFind_mapUpdate_ne (m : IPluginMap) (k q : String) (b : Bool)
    (h : q ≠ k) : mapFind (mapUpdate m k b) q = mapFind m q := by
  induction m with
  | nil => rfl
  | cons ent rest ih =>
    have hs : ¬ (k = q) := fun hh => h hh.symm
    by_cases he : ent.1 = k
    · by_cases hq : ent.1 = q
      · exact absurd (hq.symm.trans he) h
      · simp [mapUpdate, mapFind, he, hq, hs, h] at ih ⊢
        exact ih
    · by_cases hq : ent.1 = q
      · simp [mapUpdate, mapFind, he, hq, hs, h]
      · simp [mapUpdate, mapFind, he, hq, hs, h] at ih ⊢
        exact ih

theorem mapFind_mapUpdate_isSome (m : IPluginMap) (k q : String) (b : Bool) :
    (mapFind (mapUpdate m k b) q).isSome = (mapFind m q).isSome := by
  induction m with
  | nil => rfl
  | cons ent rest ih =>
    by_cases he : ent.1 = k
    · by_cases hq : ent.1 = q
      · have hkq : k = q := he.symm.trans hq
        simp [mapUpdate, mapFind, he, hq, hkq]
      · have hkq : ¬ (k = q) := fun hh => hq (he.trans hh)
        simp [mapUpdate, mapFind, he, hq, hkq] at ih ⊢
        exact ih
    · by_cases hq : ent.1 = q
      · have hqk : ¬ (q = k) := fun hh => he (hq.trans hh)
        simp [mapUpdate, mapFind, he, hq, hqk]
      · simp [mapUpdate, mapFind, he, hq] at ih ⊢
        exact ih

/-- Characterization helper: the association list produced by inserting
the processed keys freshly, with `loadOrderPos` counting up from
`start`. -/
def freshEntries (fmt : PluginFormat) (e : Bool) (keys : List String) (start : Nat) : IPluginMap :=
  match keys with
  | [] => []
  | k :: rest =>
    (procKey fmt k, ⟨procEnabled fmt e k, (start : Int)⟩) :: freshEntries fmt e rest (start + 1)

theorem initFold_fresh (fmt : PluginFormat) (native : List String) (e : Bool)
    (keys : List String) (p0 : IPluginMap) (n : Nat) (hn : n = p0.length)
    (hnat : ∀ k ∈ keys, native.contains (strToLower (procKey fmt k)) = false)
    (hfresh : ∀ k ∈ keys, mapFind p0 (procKey fmt k) = none)
    (hnd : (keys.map (procKey fmt)).Nodup) :
    keys.foldl (initStep fmt native e) (p0, n)
      = (p0 ++ freshEntries fmt e keys n, n + keys.length) := by
  induction keys generalizing p0 n with
  | nil => simp [freshEntries]
  | cons k rest ih =>
    rw [List.foldl_cons]
    have hstep : initStep fmt native e (p0, n) k
        = (p0 ++ [(procKey fmt k, ⟨procEnabled fmt e k, (n : Int)⟩)], n + 1) := by
      rw [initStep]
      simp only [hnat k (by simp), Bool.false_eq_true, if_false,
        hfresh k (by simp)]
    rw [hstep]
    rw [List.map_cons, List.nodup_cons] at hnd
    have hfresh2 : ∀ k2 ∈ rest,
        mapFind (p0 ++ [(procKey fmt k, ⟨procEnabled fmt e k, (n : Int)⟩)]) (procKey fmt k2)
          = none := by
      intro k2 hk2
      rw [mapFind_append_of_none _ _ _ (hfresh k2 (by simp [hk2]))]
      apply mapFind_singleton_ne
      intro hcontr
      exact hnd.1 (hcontr ▸ List.mem_map_of_mem (procKey fmt) hk2)
    have hlen : n + 1
        = (p0 ++ [(procKey fmt k, (⟨procEnabled fmt e k, (n : Int)⟩ : ILoadOrder))]).length := by
      simp [hn]
    rw [ih _ _ hlen (fun k2 hk2 => hnat k2 (by simp [hk2])) hfresh2 hnd.2]
    rw [List.append_assoc]
    simp [freshEntries, List.length_cons]
    omega

theorem initFromKeyList_fresh (fmt : PluginFormat) (native : List String) (e : Bool)
    (keys : List String)
    (hnat : ∀ k ∈ keys, native.contains (strToLower (procKey fmt k)) = false)
    (hnd : (keys.map (procKey fmt)).Nodup) :
    initFromKeyList fmt native [] keys e = freshEntries fmt e keys 0 := by
  unfold initFromKeyList
  rw [initFold_fresh fmt native e keys [] _ rfl hnat (fun k hk => rfl) hnd]
  simp

/-- Characterization helper: a table whose keys are `L` in order, whose
`loadOrder` values are consecutive positions starting at `start`, and
whose enabled flags are given pointwise by `en`. -/
def rankTable (en : String → Bool) (L : List String) (start : Nat) : IPluginMap :=
  match L with
  | [] => []
  | k :: rest => (k, ⟨en k, (start : Int)⟩) :: rankTable en rest (start + 1)

theorem rankTable_congr (en1 en2 : String → Bool) (L : List String) (start : Nat)
    (h : ∀ k ∈ L, en1 k = en2 k) :
    rankTable en1 L start = rankTable en2 L start := by
  induction L generalizing start with
  | nil => rfl
  | cons k rest ih =>
    rw [rankTable, rankTable, h k (by simp), ih start.succ (fun x hx => h x (by simp [hx]))]

theorem rankTable_keys (en : String → Bool) (L : List String) (start : Nat) :
    (rankTable en L start).map Prod.fst = L := by
  induction L generalizing start with
  | nil => rfl
  | cons k rest ih =>
    rw [rankTable, List.map_cons, ih (start + 1)]

/-- Index of the first occurrence of `k` in a key list. -/
def idxIn (k : String) : List String → Nat
  | [] => 0
  | x :: rest => if x = k then 0 else idxIn k rest + 1

theorem mapFind_rankTable (en : String → Bool) (L : List String) (start : Nat)
    (k : String) (hk : k ∈ L) :
    mapFind (rankTable en L start) k = some ⟨en k, ((start + idxIn k L : Nat) : Int)⟩ := by
  induction L generalizing start with
  | nil => simp at hk
  | cons x rest ih =>
    rw [rankTable, mapFind]
    by_cases hx : x = k
    · subst hx
      simp [idxIn]
    · simp only [hx, if_false, idxIn]
      have hk2 : k ∈ rest := by
        rcases List.mem_cons.mp hk with rfl | h2
        · exact absurd rfl hx
        · exact h2
      rw [ih (start + 1) hk2]
      have : start + 1 + idxIn k rest = start + (idxIn k rest + 1) := by omega
      rw [this]

theorem mapUpdate_rankTable (en : String → Bool) (L : List String) (start : Nat)
    (k : String) (b : Bool) :
    mapUpdate (rankTable en L start) k b
      = rankTable (fun q => if q = k then b else en q) L start := by
  induction L generalizing start with
  | nil => rfl
  | cons x rest ih =>
    rw [rankTable, mapUpdate, List.map_cons, rankTable]
    by_cases hx : x = k
    · simp only [hx, if_true]
      rw [← mapUpdate, ih (start + 1)]
    · simp only [hx, if_false]
      rw [← mapUpdate, ih (start + 1)]

theorem initFold_update_rank (fmt : PluginFormat) (native : List String)
    (L : List String) (keys : List String) (en : String → Bool) (start n : Nat)
    (hnat : ∀ k ∈ keys, native.contains (strToLower (procKey fmt k)) = false)
    (hmem : ∀ k ∈ keys, procKey fmt k ∈ L)
    (hen : ∀ k ∈ keys, procEnabled fmt true k = true) :
    keys.foldl (initStep fmt native true) (rankTable en L start, n)
      = (rankTable (fun q => if q ∈ keys.map (procKey fmt) then true else en q) L start, n) := by
  induction keys generalizing en with
  | nil =>
    rw [List.foldl_nil]
    exact congrArg (fun t => (t, n)) (rankTable_congr en _ L start (fun k hk => by simp))
  | cons k rest ih =>
    rw [List.foldl_cons]
    have hsome : (mapFind (rankTable en L start) (procKey fmt k)).isSome := by
      rw [mapFind_rankTable en L start _ (hmem k (by simp))]
      rfl
    have hstep : initStep fmt native true (rankTable en L start, n) k
        = (mapUpdate (rankTable en L start) (procKey fmt k) true, n) := by
      rw [initStep]
      simp only [hnat k (by simp), Bool.false_eq_true, if_false]
      rw [hen k (by simp)]
      cases hfind : mapFind (rankTable en L start) (procKey fmt k) with
      | none => rw [hfind] at hsome; simp at hsome
      | some v => rfl
    rw [hstep, mapUpdate_rankTable]
    rw [ih (fun q => if q = procKey fmt k then true else en q)
      (fun x hx => hnat x (by simp [hx])) (fun x hx => hmem x (by simp [hx]))
      (fun x hx => hen x (by simp [hx]))]
    rw [rankTable_congr]
    intro q hq
    by_cases h1 : q ∈ rest.map (procKey fmt)
    · simp [h1]
    · by_cases h2 : q = procKey fmt k
      · simp [h1, h2]
      · simp [h1, h2]

theorem idxIn_lt_iff (f : String → Int) (L : List String)
    (hp : L.Pairwise (fun a b => f a < f b)) (a b : String)
    (ha : a ∈ L) (hb : b ∈ L) :
    (idxIn a L < idxIn b L ↔ f a < f b) := by
  induction L with
  | nil => simp at ha
  | cons x rest ih =>
    rw [List.pairwise_cons] at hp
    by_cases hxa : x = a
    · by_cases hxb : x = b
      · have hab : a = b := hxa.symm.trans hxb
        subst hab
        simp [idxIn, hxa]
      · have hb2 : b ∈ rest := by
          rcases List.mem_cons.mp hb with rfl | h2
          · exact absurd rfl hxb
          · exact h2
        have e1 : idxIn a (x :: rest) = 0 := by simp [idxIn, hxa]
        have e2 : idxIn b (x :: rest) = idxIn b rest + 1 := by simp [idxIn, hxb]
        rw [e1, e2]
        exact iff_of_true (by omega) (hxa ▸ hp.1 b hb2)
    · by_cases hxb : x = b
      · have ha2 : a ∈ rest := by
          rcases List.mem_cons.mp ha with rfl | h2
          · exact absurd rfl hxa
          · exact h2
        have hfa : f b < f a := hxb ▸ hp.1 a ha2
        have e1 : idxIn a (x :: rest) = idxIn a rest + 1 := by simp [idxIn, hxa]
        have e2 : idxIn b (x :: rest) = 0 := by simp [idxIn, hxb]
        rw [e1, e2]
        exact iff_of_false (by omega) (fun hcon => absurd (lt_trans hcon hfa) (lt_irrefl _))
      · have ha2 : a ∈ rest := by
          rcases List.mem_cons.mp ha with rfl | h2
          · exact absurd rfl hxa
          · exact h2
        have hb2 : b ∈ rest := by
          rcases List.mem_cons.mp hb with rfl | h2
          · exact absurd rfl hxb
          · exact h2
        simp only [idxIn, hxa, hxb, if_false]
        rw [Nat.add_lt_add_iff_right]
        exact ih hp.2 ha2 hb2

theorem sortedKeys_pairwise_lt (p : IPluginMap) (native : List String)
    (hnd : (p.map Prod.fst).Nodup)
    (hinj : ∀ k1 ∈ nonNativeKeys p native, ∀ k2 ∈ nonNativeKeys p native,
      loValue p k1 = loValue p k2 → k1 = k2) :
    (sortedKeys p native).Pairwise (fun a b => loValue p a < loValue p b) := by
  have hs := sortKeys_sorted p (nonNativeKeys p native)
  have hn : (sortedKeys p native).Nodup := sortedKeys_nodup p native hnd
  have hboth := hs.and hn
  apply hboth.imp_of_mem
  intro a b ha hb hab
  have ha2 : a ∈ nonNativeKeys p native := (mem_sortedKeys p native a).mp ha
  have hb2 : b ∈ nonNativeKeys p native := (mem_sortedKeys p native b).mp hb
  exact lt_of_le_of_ne hab.1 (fun he => hab.2 (hinj a ha2 b hb2 he))

theorem procKey_original (k : String) : procKey .original k = k := rfl

theorem procEnabled_original (e : Bool) (k : String) :
    procEnabled .original e k = e := by
  cases e <;> rfl

theorem strBegins_append_star (k : String) : strBegins '*' ("*" ++ k) = true := by
  have : ("*" ++ k).data = '*' :: k.data := by
    rw [String.data_append]
    rfl
  rw [strBegins, this]
  simp

theorem strDrop1_append_star (k : String) : strDrop1 ("*" ++ k) = k := by
  have : ("*" ++ k).data = '*' :: k.data := by
    rw [String.data_append]
    rfl
  rw [strDrop1, this]
  exact strMk_data k

theorem strBegins_of_head_ne (c : Char) (k : String) (h : k.data.head? ≠ some c) :
    strBegins c k = false := by
  rw [strBegins]
  cases hk : k.data with
  | nil => rfl
  | cons x rest =>
    rw [hk] at h
    simp only [List.head?] at h
    simp
    intro hx
    exact h (by rw [hx])

theorem beq_f4_f4 : (PluginFormat.fallout4 == PluginFormat.fallout4) = true := rfl

theorem beq_f4_orig : (PluginFormat.fallout4 == PluginFormat.original) = false := rfl

theorem procKey_fallout4_star (k : String) : procKey .fallout4 ("*" ++ k) = k := by
  rw [procKey]
  simp [strBegins_append_star, strDrop1_append_star, beq_f4_f4]

theorem procKey_fallout4_plain (k : String) (h : k.data.head? ≠ some '*') :
    procKey .fallout4 k = k := by
  rw [procKey]
  simp [strBegins_of_head_ne '*' k h]

theorem procEnabled_fallout4_star (k : String) :
    procEnabled .fallout4 true ("*" ++ k) = true := by
  rw [procEnabled]
  simp [strBegins_append_star, beq_f4_orig]

theorem procEnabled_fallout4_plain (k : String) (h : k.data.head? ≠ some '*') :
    procEnabled .fallout4 true k = false := by
  rw [procEnabled]
  simp [strBegins_of_head_ne '*' k h, beq_f4_orig]

/-!
## Claim theorems
-/

/-- C10: `getItem` returns the JSON serialization of the entire current
in-memory table, always succeeds — the completion callback, when
supplied, is invoked exactly once with a null error and that same
result — and leaves every piece of store state (the whole `PState`)
unchanged. -/
theorem C10_getItem_frame (key : String) (cb : Bool) (s : PState) :
    getItem key cb s
      = (s, (if cb then [Event.cbCalled none (some (jsonStringifyMap s.plugins))] else []),
          jsonStringifyMap s.plugins) := rfl

/-- C2 (counterexample): `setItem` with malformed JSON throws
synchronously — `JSON.parse` raises before the serialize pipeline is
ever entered — refuting the claim that `set` never throws synchronously
and that parse failures go into the serialize pipeline's error
channel. -/
theorem C2_counterexample :
    setItem "loadOrder" "not json" true true true
      ⟨[("a.esp", ⟨true, 0⟩)], 3, true, false, true, .original, [], true⟩
      = Except.error "SyntaxError: invalid JSON" := rfl

/-- C2 (amended): for every input string, `set(key, value)` parses the
value as JSON; on success it replaces the whole in-memory table with the
parsed value and triggers a serialize pass (both files are written from
the new table); on malformed JSON it throws the parse error
synchronously to the caller — no state change and no serialize. -/
theorem C2_setItem_amended (key value : String) (cb : Bool) (s : PState)
    (hload : s.loaded = true) (hpath : s.pathSet = true) :
    (∀ j, jsonParse value = some j →
      setItem key value true true cb s
        = Except.ok ({ s with plugins := pluginsOfJson j, failed := false },
            [Event.wroteFile "loadorder.txt"
               (loadorderContent (pluginsOfJson j) s.nativePlugins),
             Event.wroteFile "plugins.txt"
               (pluginsContent s.pluginFormat (pluginsOfJson j) s.nativePlugins)]
              ++ (if cb then [Event.cbCalled none none] else [])))
    ∧ (jsonParse value = none →
        setItem key value true true cb s = Except.error "SyntaxError: invalid JSON") := by
  constructor
  · intro j hj
    simp [setItem, hj, serialize, doSerialize, hload, hpath]
  · intro hn
    simp [setItem, hn]

/-- C2 witness: concrete instances of both branches of the amended
claim. -/
theorem C2_setItem_witness :
    setItem "loadOrder" "\x7b\x7d" true true false
      ⟨[("a.esp", ⟨true, 0⟩)], 3, true, false, true, .original, [], true⟩
      = Except.ok
          ({ (⟨[("a.esp", ⟨true, 0⟩)], 3, true, false, true, .original, [], true⟩ : PState) with
              plugins := pluginsOfJson (Json.jobj []), failed := false },
            [Event.wroteFile "loadorder.txt"
               (loadorderContent (pluginsOfJson (Json.jobj [])) []),
             Event.wroteFile "plugins.txt"
               (pluginsContent .original (pluginsOfJson (Json.jobj [])) [])]
              ++ (if false then [Event.cbCalled none none] else [])) :=
  (C2_setItem_amended "loadOrder" "\x7b\x7d" false
    ⟨[("a.esp", ⟨true, 0⟩)], 3, true, false, true, .original, [], true⟩ rfl rfl).1
    (Json.jobj []) rfl

/-- C3 (counterexample): with the active format `fallout4`, a serialize
pass does write `loadorder.txt` — refuting the claim that only
`plugins.txt` is written in this mode. -/
theorem C3_counterexample :
    Event.wroteFile "loadorder.txt" "# Automatically generated by Vortex\r\na.esp"
      ∈ (doSerialize true true
          ⟨[("a.esp", ⟨true, 0⟩)], 3, true, false, true, .fallout4, [], true⟩).2 := by
  decide

/-- C3 (amended): with the active format `fallout4`, a completed
serialize pass writes both files — `loadorder.txt` first, then
`plugins.txt` (whose line positions and `*` markers encode the load
order and enabled flags) — and clears the failed flag. -/
theorem C3_serialize_both_files (s : PState) (hfmt : s.pluginFormat = .fallout4)
    (hpath : s.pathSet = true) :
    (doSerialize true true s).2
      = [Event.wroteFile "loadorder.txt" (loadorderContent s.plugins s.nativePlugins),
         Event.wroteFile "plugins.txt" (pluginsContent .fallout4 s.plugins s.nativePlugins)]
    ∧ (doSerialize true true s).1 = { s with failed := false } := by
  constructor <;> simp [doSerialize, hpath, hfmt]

/-- C3 witness: the amended claim at a concrete fallout4-format state. -/
theorem C3_serialize_both_files_witness :
    (doSerialize true true
        (⟨[("a.esp", ⟨true, 0⟩)], 3, true, false, true, .fallout4, [], true⟩ : PState)).2
      = [Event.wroteFile "loadorder.txt" (loadorderContent [("a.esp", ⟨true, 0⟩)] []),
         Event.wroteFile "plugins.txt" (pluginsContent .fallout4 [("a.esp", ⟨true, 0⟩)] [])]
    ∧ (doSerialize true true
        (⟨[("a.esp", ⟨true, 0⟩)], 3, true, false, true, .fallout4, [], true⟩ : PState)).1
      = { (⟨[("a.esp", ⟨true, 0⟩)], 3, true, false, true, .fallout4, [], true⟩ : PState) with
          failed := false } :=
  C3_serialize_both_files ⟨[("a.esp", ⟨true, 0⟩)], 3, true, false, true, .fallout4, [], true⟩
    rfl rfl

/-- C4 (counterexample): a successful load (table replaced, store marked
loaded) with no reset callback registered leaves the retry counter at
its exhausted value `0` instead of resetting it to `retryCount` —
refuting "regardless of any other store configuration". -/
theorem C4_counterexample :
    ((deserializeRun ⟨.ok "", .ok "x.esp"⟩ ⟨.ok "", .ok ""⟩
        ⟨[], 0, false, false, false, .fallout4, [], true⟩).1.loaded = true)
    ∧ ((deserializeRun ⟨.ok "", .ok "x.esp"⟩ ⟨.ok "", .ok ""⟩
        ⟨[], 0, false, false, false, .fallout4, [], true⟩).1.plugins
        = [("x.esp", ⟨false, 0⟩)])
    ∧ ¬ ((deserializeRun ⟨.ok "", .ok "x.esp"⟩ ⟨.ok "", .ok ""⟩
        ⟨[], 0, false, false, false, .fallout4, [], true⟩).1.retryCounter = retryCount) := by
  decide

/-- C4 (amended): the retry counter is reset to `retryCount` on every
successful load and on every `disable()` call provided a reset callback
has been registered; when no reset callback is registered, both leave
the counter unchanged. -/
theorem C4_retry_reset_amended :
    (∀ s : PState, s.hasResetCallback = true → (disable s).1.retryCounter = retryCount)
    ∧ (∀ s : PState, s.hasResetCallback = false → (disable s).1.retryCounter = s.retryCounter)
    ∧ (∀ (s : PState) (d d2 : String) (rr : Reads), s.pathSet = true →
        ¬ d.length = 0 →
        ((deserializeRun ⟨.ok d2, .ok d⟩ rr s).1.loaded = true
         ∧ (deserializeRun ⟨.ok d2, .ok d⟩ rr s).1.retryCounter
             = (if s.hasResetCallback then retryCount else s.retryCounter))) := by
  refine ⟨?_, ?_, ?_⟩
  · intro s h
    simp [disable, h]
  · intro s h
    simp [disable, h]
  · intro s d d2 rr hpath hlen
    cases hfmt : s.pluginFormat <;>
      simp [deserializeRun, deserializeAttempt, phaseOne, deserializeSuccess,
        hpath, hlen, hfmt]

/-- C4 witness: the amended claim at concrete states. -/
theorem C4_retry_reset_witness :
    ((disable (⟨[], 0, false, false, true, .original, [], true⟩ : PState)).1.retryCounter
      = retryCount)
    ∧ ((deserializeRun ⟨.ok "", .ok "x.esp"⟩ ⟨.ok "", .ok ""⟩
        (⟨[], 0, false, false, true, .original, [], true⟩ : PState)).1.loaded = true
       ∧ (deserializeRun ⟨.ok "", .ok "x.esp"⟩ ⟨.ok "", .ok ""⟩
          (⟨[], 0, false, false, true, .original, [], true⟩ : PState)).1.retryCounter
          = (if (⟨[], 0, false, false, true, .original, [], true⟩ : PState).hasResetCallback
              then retryCount
              else (⟨[], 0, false, false, true, .original, [], true⟩ : PState).retryCounter)) :=
  ⟨C4_retry_reset_amended.1 ⟨[], 0, false, false, true, .original, [], true⟩ rfl,
    C4_retry_reset_amended.2.2 ⟨[], 0, false, false, true, .original, [], true⟩
      "x.esp" "" ⟨.ok "", .ok ""⟩ rfl (by decide)⟩

/-- C5: under the `original` format the `plugins.txt` body contains
exactly the enabled, non-native plugin names, one per line in ascending
load order, with no `*` markers (the lines are the names themselves);
and for the table `a.esp` enabled at 0 / `b.esp` disabled at 1 with an
empty native set, `loadorder.txt` is the header plus `a.esp\r\nb.esp`
and `plugins.txt` is the header plus `a.esp`. -/
theorem C5_original_format :
    (∀ (p : IPluginMap) (native : List String),
      (∀ name, name ∈ toPluginListOriginal p (sortedKeys p native)
          ↔ (name ∈ p.map Prod.fst ∧ native.contains (strToLower name) = false
              ∧ enabledOf p name = true))
      ∧ (toPluginListOriginal p (sortedKeys p native)).Pairwise
          (fun a b => loValue p a ≤ loValue p b)
      ∧ ((p.map Prod.fst).Nodup → (toPluginListOriginal p (sortedKeys p native)).Nodup))
    ∧ loadorderContent [("a.esp", ⟨true, 0⟩), ("b.esp", ⟨false, 1⟩)] []
        = "# Automatically generated by Vortex\r\na.esp\r\nb.esp"
    ∧ pluginsContent .original [("a.esp", ⟨true, 0⟩), ("b.esp", ⟨false, 1⟩)] []
        = "# Automatically generated by Vortex\r\na.esp" := by
  refine ⟨?_, by decide, by decide⟩
  intro p native
  refine ⟨?_, ?_, ?_⟩
  · intro name
    simp [toPluginListOriginal, List.mem_filter, mem_sortedKeys, mem_nonNativeKeys,
      and_assoc]
  · exact (sortKeys_sorted p _).sublist (List.filter_sublist _)
  · intro hnd
    exact (sortedKeys_nodup p native hnd).filter _

/-- C5 witness: the general part of the claim applied to the example
table (discharging the key-distinctness hypothesis there). -/
theorem C5_original_format_witness :
    (toPluginListOriginal [("a.esp", ⟨true, 0⟩), ("b.esp", ⟨false, 1⟩)]
      (sortedKeys [("a.esp", ⟨true, 0⟩), ("b.esp", ⟨false, 1⟩)] [])).Nodup :=
  (C5_original_format.1 [("a.esp", ⟨true, 0⟩), ("b.esp", ⟨false, 1⟩)] []).2.2 (by decide)

/-- C6: under the `fallout4` format the `plugins.txt` lines are exactly
one line per non-native table key, in ascending load order, each key
appearing exactly once, with enabled keys prefixed by `*` and disabled
keys unprefixed. -/
theorem C6_fallout4_format (p : IPluginMap) (native : List String)
    (hnd : (p.map Prod.fst).Nodup) :
    toPluginListFallout4 p (sortedKeys p native)
      = (sortedKeys p native).map (fun k => if enabledOf p k then "*" ++ k else k)
    ∧ (sortedKeys p native).Perm (nonNativeKeys p native)
    ∧ (sortedKeys p native).Pairwise (fun a b => loValue p a ≤ loValue p b)
    ∧ (∀ k ∈ nonNativeKeys p native, (sortedKeys p native).count k = 1) := by
  refine ⟨rfl, sortKeys_perm p _, sortKeys_sorted p _, ?_⟩
  intro k hk
  exact List.count_eq_one_of_mem (sortedKeys_nodup p native hnd)
    ((mem_sortedKeys p native k).mpr hk)

/-- C6 witness: the claim at a concrete two-entry table. -/
theorem C6_fallout4_format_witness :
    toPluginListFallout4 [("a.esp", ⟨true, 0⟩), ("b.esp", ⟨false, 1⟩)]
        (sortedKeys [("a.esp", ⟨true, 0⟩), ("b.esp", ⟨false, 1⟩)] [])
      = (sortedKeys [("a.esp", ⟨true, 0⟩), ("b.esp", ⟨false, 1⟩)] []).map
          (fun k => if enabledOf [("a.esp", ⟨true, 0⟩), ("b.esp", ⟨false, 1⟩)] k
            then "*" ++ k else k)
    ∧ (sortedKeys [("a.esp", ⟨true, 0⟩), ("b.esp", ⟨false, 1⟩)] []).Perm
        (nonNativeKeys [("a.esp", ⟨true, 0⟩), ("b.esp", ⟨false, 1⟩)] [])
    ∧ (sortedKeys [("a.esp", ⟨true, 0⟩), ("b.esp", ⟨false, 1⟩)] []).Pairwise
        (fun a b => loValue [("a.esp", ⟨true, 0⟩), ("b.esp", ⟨false, 1⟩)] a
          ≤ loValue [("a.esp", ⟨true, 0⟩), ("b.esp", ⟨false, 1⟩)] b)
    ∧ (∀ k ∈ nonNativeKeys [("a.esp", ⟨true, 0⟩), ("b.esp", ⟨false, 1⟩)] [],
        (sortedKeys [("a.esp", ⟨true, 0⟩), ("b.esp", ⟨false, 1⟩)] []).count k = 1) :=
  C6_fallout4_format [("a.esp", ⟨true, 0⟩), ("b.esp", ⟨false, 1⟩)] [] (by decide)

theorem initFold_skip_native (fmt : PluginFormat) (native : List String) (e : Bool)
    (keys : List String) (k : String) (h : native.contains (strToLower k) = true) :
    ∀ acc : IPluginMap × Nat,
      mapFind (keys.foldl (initStep fmt native e) acc).1 k = mapFind acc.1 k := by
  induction keys with
  | nil =>
    intro acc
    rfl
  | cons key rest ih =>
    intro acc
    rw [List.foldl_cons, ih]
    simp only [initStep]
    by_cases hnat : native.contains (strToLower (procKey fmt key)) = true
    · rw [if_pos hnat]
    · have hne : ¬ (k = procKey fmt key) := by
        intro hcontr
        rw [← hcontr] at hnat
        exact hnat h
      rw [if_neg hnat]
      cases hf : mapFind acc.1 (procKey fmt key) with
      | some v =>
        exact mapFind_mapUpdate_ne acc.1 (procKey fmt key) k _ hne
      | none =>
        show mapFind (acc.1 ++ [(procKey fmt key,
          (⟨procEnabled fmt e key, (acc.2 : Int)⟩ : ILoadOrder))]) k = mapFind acc.1 k
        cases hacc : mapFind acc.1 k with
        | some w => simp [mapFind_append_of_some _ _ _ _ hacc, hacc]
        | none =>
          simp [mapFind_append_of_none _ _ _ hacc, hacc, mapFind, Ne.symm hne]

/-- C7 (counterexample): the native-set entry `A.esp` matches the table
key `a.esp` case-insensitively, yet the key appears in the serialized
key list and in the written `loadorder.txt` lines, and a deserialized
line naming it is not skipped — the code tests exact membership of the
lowercased key, so a native entry containing uppercase letters is never
matched.  This refutes the claim for arbitrary native sets. -/
theorem C7_counterexample :
    (strToLower "a.esp" = strToLower "A.esp")
    ∧ sortedKeys [("a.esp", ⟨true, 0⟩)] ["A.esp"] = ["a.esp"]
    ∧ filterFileData (loadorderContent [("a.esp", ⟨true, 0⟩)] ["A.esp"]) false = ["a.esp"]
    ∧ mapFind (initFromKeyList .original ["A.esp"] [] ["a.esp"] true) "a.esp"
        = some ⟨true, 0⟩ := by
  decide

/-- C7 (amended): a key whose lowercased form is an entry of the native
set never enters the serialized key list (hence no line of either file
derives from it — in particular it is not in the `original`-format
plugins list), any line resolving to it during deserialize is skipped,
and it never enters a freshly built table. -/
theorem C7_native_exclusion_amended (fmt : PluginFormat) (p : IPluginMap)
    (native : List String) (k : String)
    (h : native.contains (strToLower k) = true) :
    k ∉ sortedKeys p native
    ∧ k ∉ toPluginListOriginal p (sortedKeys p native)
    ∧ (∀ (p0 : IPluginMap) (keys : List String) (e : Bool),
        mapFind (initFromKeyList fmt native p0 keys e) k = mapFind p0 k)
    ∧ (∀ (keys : List String) (e : Bool),
        mapFind (initFromKeyList fmt native [] keys e) k = none) := by
  have h1 : k ∉ sortedKeys p native := by
    intro hk
    have h2 := (mem_sortedKeys p native k).mp hk
    rw [mem_nonNativeKeys] at h2
    rw [h] at h2
    exact absurd h2.2 (by simp)
  have h3 : ∀ (p0 : IPluginMap) (keys : List String) (e : Bool),
      mapFind (initFromKeyList fmt native p0 keys e) k = mapFind p0 k := by
    intro p0 keys e
    exact initFold_skip_native fmt native e keys k h (p0, p0.length)
  refine ⟨h1, ?_, h3, ?_⟩
  · intro hk
    exact h1 ((List.filter_sublist _).subset hk)
  · intro keys e
    rw [h3 [] keys e]
    rfl

/-- C7 witness: the amended claim at a concrete lowercase native set. -/
theorem C7_native_exclusion_witness :
    "skyrim.esm" ∉ sortedKeys [("a.esp", ⟨true, 0⟩), ("Skyrim.esm", ⟨true, 1⟩)] ["skyrim.esm"]
    ∧ (∀ (keys : List String) (e : Bool),
        mapFind (initFromKeyList .original ["skyrim.esm"] [] keys e) "skyrim.esm" = none) :=
  ⟨(C7_native_exclusion_amended .original [("a.esp", ⟨true, 0⟩), ("Skyrim.esm", ⟨true, 1⟩)]
      ["skyrim.esm"] "skyrim.esm" (by decide)).1,
    (C7_native_exclusion_amended .original [("a.esp", ⟨true, 0⟩), ("Skyrim.esm", ⟨true, 1⟩)]
      ["skyrim.esm"] "skyrim.esm" (by decide)).2.2.2⟩

/-- Event predicate: is this an error report? -/
def isErrorReport : Event → Bool
  | .errorReport _ => true
  | _ => false

/-- Event predicate: is this a read of `plugins.txt`? -/
def isPluginsRead : Event → Bool
  | .readFile n => n = "plugins.txt"
  | _ => false

/-- Number of events satisfying a predicate. -/
def countEvents (pred : Event → Bool) (evs : List Event) : Nat :=
  (evs.filter pred).length

/-- Run one `deserialize()` and append its events to an accumulated
trace (used to chain consecutive attempts). -/
def runThen (rd rr : Reads) (st : PState × List Event) : PState × List Event :=
  ((deserializeRun rd rr st.1).1, st.2 ++ (deserializeRun rd rr st.1).2)

/-- C8: starting from a full retry budget (and no latched failure), four
(`1 + retryCount`) consecutive deserialize attempts that all fail with a
non-ENOENT read error leave the prior in-memory table unchanged
throughout, end with the store marked loaded, and produce exactly one
error report in the whole trace. -/
theorem C8_retry_exhaustion (s : PState) (c1 c2 c3 c4 : String) (rr : Reads)
    (hpath : s.pathSet = true) (hr : s.retryCounter = retryCount)
    (hf : s.failed = false)
    (h1 : ¬ (c1 = "ENOENT")) (h2 : ¬ (c2 = "ENOENT"))
    (h3 : ¬ (c3 = "ENOENT")) (h4 : ¬ (c4 = "ENOENT")) :
    (runThen ⟨.err c1, .err c1⟩ rr (s, [])).1.plugins = s.plugins
    ∧ (runThen ⟨.err c2, .err c2⟩ rr
        (runThen ⟨.err c1, .err c1⟩ rr (s, []))).1.plugins = s.plugins
    ∧ (runThen ⟨.err c3, .err c3⟩ rr (runThen ⟨.err c2, .err c2⟩ rr
        (runThen ⟨.err c1, .err c1⟩ rr (s, [])))).1.plugins = s.plugins
    ∧ (runThen ⟨.err c4, .err c4⟩ rr (runThen ⟨.err c3, .err c3⟩ rr
        (runThen ⟨.err c2, .err c2⟩ rr
          (runThen ⟨.err c1, .err c1⟩ rr (s, []))))).1.plugins = s.plugins
    ∧ (runThen ⟨.err c4, .err c4⟩ rr (runThen ⟨.err c3, .err c3⟩ rr
        (runThen ⟨.err c2, .err c2⟩ rr
          (runThen ⟨.err c1, .err c1⟩ rr (s, []))))).1.loaded = true
    ∧ countEvents isErrorReport
        (runThen ⟨.err c4, .err c4⟩ rr (runThen ⟨.err c3, .err c3⟩ rr
          (runThen ⟨.err c2, .err c2⟩ rr
            (runThen ⟨.err c1, .err c1⟩ rr (s, []))))).2 = 1 := by
  cases hfmt : s.pluginFormat <;>
    simp [runThen, deserializeRun, deserializeAttempt, phaseOne, deserializeCatch,
      reportError, countEvents, isErrorReport, retryCount,
      hpath, hr, hf, h1, h2, h3, h4, hfmt]

/-- C8 witness: the exhaustion scenario at a concrete state with
`EBUSY` read failures. -/
theorem C8_retry_exhaustion_witness :
    (runThen ⟨.err "EBUSY", .err "EBUSY"⟩ ⟨.ok "", .ok ""⟩
        ((⟨[("old", ⟨true, 5⟩)], 3, false, false, false, .original, [], true⟩ : PState), [])).1.plugins
      = [("old", ⟨true, 5⟩)]
    ∧ (runThen ⟨.err "EBUSY", .err "EBUSY"⟩ ⟨.ok "", .ok ""⟩
        (runThen ⟨.err "EBUSY", .err "EBUSY"⟩ ⟨.ok "", .ok ""⟩
          ((⟨[("old", ⟨true, 5⟩)], 3, false, false, false, .original, [], true⟩ : PState), []))).1.plugins
      = [("old", ⟨true, 5⟩)]
    ∧ (runThen ⟨.err "EBUSY", .err "EBUSY"⟩ ⟨.ok "", .ok ""⟩
        (runThen ⟨.err "EBUSY", .err "EBUSY"⟩ ⟨.ok "", .ok ""⟩
          (runThen ⟨.err "EBUSY", .err "EBUSY"⟩ ⟨.ok "", .ok ""⟩
            ((⟨[("old", ⟨true, 5⟩)], 3, false, false, false, .original, [], true⟩ : PState), [])))).1.plugins
      = [("old", ⟨true, 5⟩)]
    ∧ (runThen ⟨.err "EBUSY", .err "EBUSY"⟩ ⟨.ok "", .ok ""⟩
        (runThen ⟨.err "EBUSY", .err "EBUSY"⟩ ⟨.ok "", .ok ""⟩
          (runThen ⟨.err "EBUSY", .err "EBUSY"⟩ ⟨.ok "", .ok ""⟩
            (runThen ⟨.err "EBUSY", .err "EBUSY"⟩ ⟨.ok "", .ok ""⟩
              ((⟨[("old", ⟨true, 5⟩)], 3, false, false, false, .original, [], true⟩ : PState), []))))).1.plugins
      = [("old", ⟨true, 5⟩)]
    ∧ (runThen ⟨.err "EBUSY", .err "EBUSY"⟩ ⟨.ok "", .ok ""⟩
        (runThen ⟨.err "EBUSY", .err "EBUSY"⟩ ⟨.ok "", .ok ""⟩
          (runThen ⟨.err "EBUSY", .err "EBUSY"⟩ ⟨.ok "", .ok ""⟩
            (runThen ⟨.err "EBUSY", .err "EBUSY"⟩ ⟨.ok "", .ok ""⟩
              ((⟨[("old", ⟨true, 5⟩)], 3, false, false, false, .original, [], true⟩ : PState), []))))).1.loaded
      = true
    ∧ countEvents isErrorReport
        (runThen ⟨.err "EBUSY", .err "EBUSY"⟩ ⟨.ok "", .ok ""⟩
          (runThen ⟨.err "EBUSY", .err "EBUSY"⟩ ⟨.ok "", .ok ""⟩
            (runThen ⟨.err "EBUSY", .err "EBUSY"⟩ ⟨.ok "", .ok ""⟩
              (runThen ⟨.err "EBUSY", .err "EBUSY"⟩ ⟨.ok "", .ok ""⟩
                ((⟨[("old", ⟨true, 5⟩)], 3, false, false, false, .original, [], true⟩ : PState), []))))).2
      = 1 :=
  C8_retry_exhaustion ⟨[("old", ⟨true, 5⟩)], 3, false, false, false, .original, [], true⟩
    "EBUSY" "EBUSY" "EBUSY" "EBUSY" ⟨.ok "", .ok ""⟩ rfl rfl rfl
    (by decide) (by decide) (by decide) (by decide)

/-- C9: when `plugins.txt` reads as a zero-length file, the full
deserialize is rerun exactly once (two reads of `plugins.txt` in the
trace), and on the retried attempt the empty file is accepted as a
genuinely empty plugin list: the table becomes empty, the store is
loaded, no failure is latched, and the transient-failure retry budget is
not consumed (the counter is still `retryCount`). -/
theorem C9_empty_retry (s : PState)
    (hpath : s.pathSet = true) (hr : s.retryCounter = retryCount) :
    (deserializeRun ⟨.ok "", .ok ""⟩ ⟨.ok "", .ok ""⟩ s).1.plugins = []
    ∧ (deserializeRun ⟨.ok "", .ok ""⟩ ⟨.ok "", .ok ""⟩ s).1.loaded = true
    ∧ (deserializeRun ⟨.ok "", .ok ""⟩ ⟨.ok "", .ok ""⟩ s).1.failed = false
    ∧ (deserializeRun ⟨.ok "", .ok ""⟩ ⟨.ok "", .ok ""⟩ s).1.retryCounter = retryCount
    ∧ countEvents isPluginsRead (deserializeRun ⟨.ok "", .ok ""⟩ ⟨.ok "", .ok ""⟩ s).2 = 2 := by
  cases hfmt : s.pluginFormat <;> cases hcb : s.hasResetCallback <;>
    simp [deserializeRun, deserializeAttempt, phaseOne, deserializeSuccess,
      filterFileData, splitRN, keepLine, initFromKeyList, initStep,
      countEvents, isPluginsRead, hpath, hr, hfmt, hcb]

/-- C9 witness: the empty-file scenario at a concrete state. -/
theorem C9_empty_retry_witness :
    (deserializeRun ⟨.ok "", .ok ""⟩ ⟨.ok "", .ok ""⟩
        (⟨[("old", ⟨true, 5⟩)], 3, false, false, false, .fallout4, [], true⟩ : PState)).1.plugins = []
    ∧ (deserializeRun ⟨.ok "", .ok ""⟩ ⟨.ok "", .ok ""⟩
        (⟨[("old", ⟨true, 5⟩)], 3, false, false, false, .fallout4, [], true⟩ : PState)).1.loaded = true
    ∧ (deserializeRun ⟨.ok "", .ok ""⟩ ⟨.ok "", .ok ""⟩
        (⟨[("old", ⟨true, 5⟩)], 3, false, false, false, .fallout4, [], true⟩ : PState)).1.failed = false
    ∧ (deserializeRun ⟨.ok "", .ok ""⟩ ⟨.ok "", .ok ""⟩
        (⟨[("old", ⟨true, 5⟩)], 3, false, false, false, .fallout4, [], true⟩ : PState)).1.retryCounter
      = retryCount
    ∧ countEvents isPluginsRead
        (deserializeRun ⟨.ok "", .ok ""⟩ ⟨.ok "", .ok ""⟩
          (⟨[("old", ⟨true, 5⟩)], 3, false, false, false, .fallout4, [], true⟩ : PState)).2 = 2 :=
  C9_empty_retry ⟨[("old", ⟨true, 5⟩)], 3, false, false, false, .fallout4, [], true⟩ rfl rfl

/-!
## Round-trip support lemmas
-/

/-- A plugin name that survives the round trip through the two text
files: line-safe, and (under `fallout4`) not beginning with the `*`
marker. -/
def goodName (fmt : PluginFormat) (n : String) : Prop :=
  n.data ≠ [] ∧ n.data.head? ≠ some '#'
  ∧ (∀ c ∈ n.data, c ≠ '\r' ∧ c ≠ '\n')
  ∧ (fmt = .fallout4 → n.data.head? ≠ some '*')

theorem lineSafe_of_good (fmt : PluginFormat) (n : String) (h : goodName fmt n) :
    lineSafe n :=
  ⟨h.1, h.2.1, h.2.2.1⟩

instance goodName_decidable (fmt : PluginFormat) (n : String) :
    Decidable (goodName fmt n) := by
  unfold goodName
  exact inferInstance

theorem freshEntries_eq_rankTable (fmt : PluginFormat) (e : Bool)
    (keys : List String) (en : String → Bool) (start : Nat)
    (h : ∀ k ∈ keys, procEnabled fmt e k = en (procKey fmt k)) :
    freshEntries fmt e keys start = rankTable en (keys.map (procKey fmt)) start := by
  induction keys generalizing start with
  | nil => rfl
  | cons k rest ih =>
    rw [freshEntries, List.map_cons, rankTable, h k (by simp),
      ih (start + 1) (fun x hx => h x (by simp [hx]))]

theorem map_procKey_original (L : List String) : L.map (procKey .original) = L := by
  have hcongr : ∀ k ∈ L, procKey .original k = k := fun k hk => rfl
  rw [List.map_congr_left hcongr, List.map_id']

theorem content_length_ne_zero (x : String) :
    ¬ ((genHeader ++ "\r\n" ++ x).length = 0) := by
  intro h0
  have hd : (genHeader ++ "\r\n" ++ x).data
      = genHeader.data ++ ('\r' :: '\n' :: x.data) := by
    rw [String.data_append, String.data_append]
    simp
  have hl : (genHeader ++ "\r\n" ++ x).length
      = (genHeader.data ++ ('\r' :: '\n' :: x.data)).length := by
    rw [← hd]
    rfl
  rw [hl] at h0
  simp [genHeader] at h0

theorem pluginsContent_length_ne_zero (fmt : PluginFormat) (p : IPluginMap)
    (native : List String) : ¬ ((pluginsContent fmt p native).length = 0) :=
  content_length_ne_zero _

theorem procKey_decorate (p : IPluginMap) (k : String) (h : k.data.head? ≠ some '*') :
    procKey .fallout4 (if enabledOf p k then "*" ++ k else k) = k := by
  by_cases he : enabledOf p k
  · simp only [he, if_true]
    exact procKey_fallout4_star k
  · simp only [he, Bool.false_eq_true, if_false]
    exact procKey_fallout4_plain k h

theorem procEnabled_decorate (p : IPluginMap) (k : String) (h : k.data.head? ≠ some '*') :
    procEnabled .fallout4 true (if enabledOf p k then "*" ++ k else k) = enabledOf p k := by
  by_cases he : enabledOf p k
  · simp only [he, if_true]
    exact procEnabled_fallout4_star k
  · simp only [he, Bool.false_eq_true, if_false]
    rw [procEnabled_fallout4_plain k h]

theorem map_procKey_decorate (p : IPluginMap) (L : List String)
    (h : ∀ k ∈ L, k.data.head? ≠ some '*') :
    (L.map (fun k => if enabledOf p k then "*" ++ k else k)).map (procKey .fallout4) = L := by
  rw [List.map_map]
  have hcongr : ∀ k ∈ L,
      (procKey .fallout4 ∘ fun k => if enabledOf p k then "*" ++ k else k) k = k := by
    intro k hk
    exact procKey_decorate p k (h k hk)
  rw [List.map_congr_left hcongr, List.map_id']

theorem lineSafe_decorate (p : IPluginMap) (k : String) (hg : goodName .fallout4 k) :
    lineSafe (if enabledOf p k then "*" ++ k else k) := by
  by_cases he : enabledOf p k
  · simp only [he, if_true]
    have hd : ("*" ++ k).data = '*' :: k.data := by
      rw [String.data_append]
      rfl
    refine ⟨?_, ?_, ?_⟩
    · rw [hd]
      simp
    · rw [hd]
      simp
    · intro c hc
      rw [hd] at hc
      rcases List.mem_cons.mp hc with rfl | hc2
      · exact ⟨by decide, by decide⟩
      · exact hg.2.2.1 c hc2
  · simp only [he, Bool.false_eq_true, if_false]
    exact lineSafe_of_good _ k hg

/-- The state after serializing table `p` under the context of `s` and
deserializing the two written files (same format, same native set). -/
def roundTripRun (p : IPluginMap) (s : PState) : PState :=
  (deserializeRun
    ⟨.ok (loadorderContent p s.nativePlugins),
     .ok (pluginsContent s.pluginFormat p s.nativePlugins)⟩
    ⟨.ok (loadorderContent p s.nativePlugins),
     .ok (pluginsContent s.pluginFormat p s.nativePlugins)⟩ s).1

theorem roundTrip_plugins_original (s : PState) (p : IPluginMap)
    (hpath : s.pathSet = true) (hfmt : s.pluginFormat = .original)
    (hnd : (p.map Prod.fst).Nodup)
    (hwf : ∀ k ∈ nonNativeKeys p s.nativePlugins, goodName s.pluginFormat k) :
    (roundTripRun p s).plugins
      = rankTable (fun q => enabledOf p q) (sortedKeys p s.nativePlugins) 0
    ∧ (roundTripRun p s).loaded = true := by
  have hLnd : (sortedKeys p s.nativePlugins).Nodup := sortedKeys_nodup p _ hnd
  have hLnat : ∀ k ∈ sortedKeys p s.nativePlugins,
      s.nativePlugins.contains (strToLower k) = false := fun k hk =>
    ((mem_nonNativeKeys p _ k).mp ((mem_sortedKeys p _ k).mp hk)).2
  have hLwf : ∀ k ∈ sortedKeys p s.nativePlugins, goodName s.pluginFormat k := fun k hk =>
    hwf k ((mem_sortedKeys p _ k).mp hk)
  have hlo : filterFileData (loadorderContent p s.nativePlugins) false
      = sortedKeys p s.nativePlugins :=
    filterFileData_header_join _ false (fun n hn => lineSafe_of_good _ n (hLwf n hn))
  have hplsub : ∀ n ∈ toPluginListOriginal p (sortedKeys p s.nativePlugins),
      n ∈ sortedKeys p s.nativePlugins := fun n hn => (List.filter_sublist _).subset hn
  have hpl : filterFileData (pluginsContent .original p s.nativePlugins) true
      = toPluginListOriginal p (sortedKeys p s.nativePlugins) :=
    filterFileData_header_join _ true
      (fun n hn => lineSafe_of_good _ n (hLwf n (hplsub n hn)))
  have hnat1 : ∀ k ∈ sortedKeys p s.nativePlugins,
      s.nativePlugins.contains (strToLower (procKey .original k)) = false := by
    intro k hk
    rw [procKey_original]
    exact hLnat k hk
  have hnd1 : ((sortedKeys p s.nativePlugins).map (procKey .original)).Nodup := by
    rw [map_procKey_original]
    exact hLnd
  have hnp : initFromKeyList .original s.nativePlugins []
      (sortedKeys p s.nativePlugins) false
      = rankTable (fun _ => false) (sortedKeys p s.nativePlugins) 0 := by
    rw [initFromKeyList_fresh .original s.nativePlugins false _ hnat1 hnd1,
      freshEntries_eq_rankTable .original false _ (fun _ => false) 0
        (fun k hk => by rw [procEnabled_original]),
      map_procKey_original]
  have hnatE : ∀ k ∈ toPluginListOriginal p (sortedKeys p s.nativePlugins),
      s.nativePlugins.contains (strToLower (procKey .original k)) = false := by
    intro k hk
    rw [procKey_original]
    exact hLnat k (hplsub k hk)
  have hmemE : ∀ k ∈ toPluginListOriginal p (sortedKeys p s.nativePlugins),
      procKey .original k ∈ sortedKeys p s.nativePlugins := by
    intro k hk
    rw [procKey_original]
    exact hplsub k hk
  have henE : ∀ k ∈ toPluginListOriginal p (sortedKeys p s.nativePlugins),
      procEnabled .original true k = true := by
    intro k hk
    rw [procEnabled_original]
  have hfinal : initFromKeyList .original s.nativePlugins
      (rankTable (fun _ => false) (sortedKeys p s.nativePlugins) 0)
      (toPluginListOriginal p (sortedKeys p s.nativePlugins)) true
      = rankTable (fun q => enabledOf p q) (sortedKeys p s.nativePlugins) 0 := by
    unfold initFromKeyList
    rw [initFold_update_rank .original s.nativePlugins
      (sortedKeys p s.nativePlugins) (toPluginListOriginal p (sortedKeys p s.nativePlugins))
      (fun _ => false) 0 _ hnatE hmemE henE]
    show rankTable _ _ 0 = _
    simp only [map_procKey_original]
    apply rankTable_congr
    intro k hk
    by_cases he : enabledOf p k
    · have hkE : k ∈ toPluginListOriginal p (sortedKeys p s.nativePlugins) :=
        List.mem_filter.mpr ⟨hk, he⟩
      simp [hkE, he]
    · have hkE : k ∉ toPluginListOriginal p (sortedKeys p s.nativePlugins) := by
        intro hc
        exact he (List.mem_filter.mp hc).2
      simp [hkE, he]
  constructor
  · show (deserializeRun _ _ s).1.plugins = _
    simp only [deserializeRun, deserializeAttempt, phaseOne, deserializeSuccess,
      hfmt, hpath, pluginsContent_length_ne_zero, Bool.true_eq_false, if_false,
      false_and, hlo, hpl, hnp, hfinal]
  · show (deserializeRun _ _ s).1.loaded = true
    simp only [deserializeRun, deserializeAttempt, phaseOne, deserializeSuccess,
      hfmt, hpath, pluginsContent_length_ne_zero, Bool.true_eq_false, if_false,
      false_and]

theorem roundTrip_plugins_fallout4 (s : PState) (p : IPluginMap)
    (hpath : s.pathSet = true) (hfmt : s.pluginFormat = .fallout4)
    (hnd : (p.map Prod.fst).Nodup)
    (hwf : ∀ k ∈ nonNativeKeys p s.nativePlugins, goodName s.pluginFormat k) :
    (roundTripRun p s).plugins
      = rankTable (fun q => enabledOf p q) (sortedKeys p s.nativePlugins) 0
    ∧ (roundTripRun p s).loaded = true := by
  have hLnd : (sortedKeys p s.nativePlugins).Nodup := sortedKeys_nodup p _ hnd
  have hLnat : ∀ k ∈ sortedKeys p s.nativePlugins,
      s.nativePlugins.contains (strToLower k) = false := fun k hk =>
    ((mem_nonNativeKeys p _ k).mp ((mem_sortedKeys p _ k).mp hk)).2
  have hLwf : ∀ k ∈ sortedKeys p s.nativePlugins, goodName .fallout4 k := fun k hk =>
    hfmt ▸ hwf k ((mem_sortedKeys p _ k).mp hk)
  have hstar : ∀ k ∈ sortedKeys p s.nativePlugins, k.data.head? ≠ some '*' :=
    fun k hk => (hLwf k hk).2.2.2 rfl
  have hD : filterFileData (pluginsContent .fallout4 p s.nativePlugins) true
      = toPluginListFallout4 p (sortedKeys p s.nativePlugins) := by
    apply filterFileData_header_join
    intro n hn
    obtain ⟨k, hkL, rfl⟩ := List.mem_map.mp hn
    exact lineSafe_decorate p k (hLwf k hkL)
  have hDproc : ((toPluginListFallout4 p (sortedKeys p s.nativePlugins)).map
      (procKey .fallout4)) = sortedKeys p s.nativePlugins :=
    map_procKey_decorate p (sortedKeys p s.nativePlugins) hstar
  have hnatD : ∀ d ∈ toPluginListFallout4 p (sortedKeys p s.nativePlugins),
      s.nativePlugins.contains (strToLower (procKey .fallout4 d)) = false := by
    intro d hd
    obtain ⟨k, hkL, rfl⟩ := List.mem_map.mp hd
    rw [procKey_decorate p k (hstar k hkL)]
    exact hLnat k hkL
  have hndD : ((toPluginListFallout4 p (sortedKeys p s.nativePlugins)).map
      (procKey .fallout4)).Nodup := by
    rw [hDproc]
    exact hLnd
  have hfinal : initFromKeyList .fallout4 s.nativePlugins []
      (toPluginListFallout4 p (sortedKeys p s.nativePlugins)) true
      = rankTable (fun q => enabledOf p q) (sortedKeys p s.nativePlugins) 0 := by
    have hen : ∀ d ∈ toPluginListFallout4 p (sortedKeys p s.nativePlugins),
        procEnabled .fallout4 true d = (fun q => enabledOf p q) (procKey .fallout4 d) := by
      intro d hd
      obtain ⟨k, hkL, rfl⟩ := List.mem_map.mp hd
      rw [procEnabled_decorate p k (hstar k hkL), procKey_decorate p k (hstar k hkL)]
    rw [initFromKeyList_fresh .fallout4 s.nativePlugins true _ hnatD hndD,
      freshEntries_eq_rankTable .fallout4 true _ (fun q => enabledOf p q) 0 hen,
      hDproc]
  constructor
  · show (deserializeRun _ _ s).1.plugins = _
    simp only [deserializeRun, deserializeAttempt, phaseOne, deserializeSuccess,
      hfmt, hpath, pluginsContent_length_ne_zero, Bool.true_eq_false, if_false,
      false_and, hD, hfinal]
  · show (deserializeRun _ _ s).1.loaded = true
    simp only [deserializeRun, deserializeAttempt, phaseOne, deserializeSuccess,
      hfmt, hpath, pluginsContent_length_ne_zero, Bool.true_eq_false, if_false,
      false_and]

/-- C1 (counterexample): a table whose single non-native key is
`#a.esp` (pairwise-distinct load orders hold trivially) serializes to
files in which the key's line starts with `#`; the deserializer drops it
as a comment, so the round-tripped table is empty — its non-native key
set differs from the original, refuting the claim for arbitrary keys. -/
theorem C1_counterexample :
    nonNativeKeys [("#a.esp", ⟨true, 0⟩)] [] = ["#a.esp"]
    ∧ (roundTripRun [("#a.esp", ⟨true, 0⟩)]
        (⟨[("#a.esp", ⟨true, 0⟩)], 3, false, false, false, .original, [], true⟩ : PState)).plugins
      = [] := by
  decide

/-- C1 (amended): for every table whose non-native entries have
pairwise-distinct `loadOrder` values and whose non-native keys are
well-formed plugin names — nonempty, no CR/LF characters, not beginning
with `#`, and (under `fallout4`) not beginning with `*` — serializing
under a given format and deserializing the written files with the same
format and native set yields a loaded store whose table has the same
non-native key set, the same enabled flag for every such key, and the
same relative load-order ranking; absolute `loadOrder` values need not
be preserved. -/
theorem C1_round_trip_amended (s : PState) (p : IPluginMap)
    (hpath : s.pathSet = true)
    (hnd : (p.map Prod.fst).Nodup)
    (hinj : ∀ k1 ∈ nonNativeKeys p s.nativePlugins,
      ∀ k2 ∈ nonNativeKeys p s.nativePlugins,
      loValue p k1 = loValue p k2 → k1 = k2)
    (hwf : ∀ k ∈ nonNativeKeys p s.nativePlugins, goodName s.pluginFormat k) :
    (roundTripRun p s).loaded = true
    ∧ ((roundTripRun p s).plugins.map Prod.fst).Perm (nonNativeKeys p s.nativePlugins)
    ∧ (∀ k ∈ nonNativeKeys p s.nativePlugins,
        enabledOf (roundTripRun p s).plugins k = enabledOf p k)
    ∧ (∀ k1 ∈ nonNativeKeys p s.nativePlugins,
        ∀ k2 ∈ nonNativeKeys p s.nativePlugins,
        (loValue (roundTripRun p s).plugins k1 < loValue (roundTripRun p s).plugins k2
          ↔ loValue p k1 < loValue p k2)) := by
  have hmain : (roundTripRun p s).plugins
      = rankTable (fun q => enabledOf p q) (sortedKeys p s.nativePlugins) 0
      ∧ (roundTripRun p s).loaded = true := by
    cases hfmt : s.pluginFormat with
    | original => exact roundTrip_plugins_original s p hpath hfmt hnd hwf
    | fallout4 => exact roundTrip_plugins_fallout4 s p hpath hfmt hnd hwf
  have hp := sortedKeys_pairwise_lt p s.nativePlugins hnd hinj
  refine ⟨hmain.2, ?_, ?_, ?_⟩
  · rw [hmain.1, rankTable_keys]
    exact sortKeys_perm p _
  · intro k hk
    have hkL : k ∈ sortedKeys p s.nativePlugins := (mem_sortedKeys p _ k).mpr hk
    rw [hmain.1]
    unfold enabledOf
    rw [mapFind_rankTable _ _ _ k hkL]
    rfl
  · intro k1 hk1 k2 hk2
    have hL1 : k1 ∈ sortedKeys p s.nativePlugins := (mem_sortedKeys p _ k1).mpr hk1
    have hL2 : k2 ∈ sortedKeys p s.nativePlugins := (mem_sortedKeys p _ k2).mpr hk2
    rw [hmain.1]
    unfold loValue
    rw [mapFind_rankTable _ _ _ k1 hL1, mapFind_rankTable _ _ _ k2 hL2]
    show ((0 + idxIn k1 (sortedKeys p s.nativePlugins) : Nat) : Int)
        < ((0 + idxIn k2 (sortedKeys p s.nativePlugins) : Nat) : Int)
      ↔ ((mapFind p k1).getD ⟨false, 0⟩).loadOrder < ((mapFind p k2).getD ⟨false, 0⟩).loadOrder
    rw [Int.ofNat_lt]
    simp only [Nat.zero_add]
    exact idxIn_lt_iff (loValue p) (sortedKeys p s.nativePlugins) hp k1 k2 hL1 hL2

/-- C1 witness: the amended round trip at a concrete two-entry table. -/
theorem C1_round_trip_witness :
    (roundTripRun [("a.esp", ⟨true, 0⟩), ("b.esp", ⟨false, 1⟩)]
        (⟨[], 3, false, false, true, .original, [], true⟩ : PState)).loaded = true
    ∧ ((roundTripRun [("a.esp", ⟨true, 0⟩), ("b.esp", ⟨false, 1⟩)]
        (⟨[], 3, false, false, true, .original, [], true⟩ : PState)).plugins.map
          Prod.fst).Perm
        (nonNativeKeys [("a.esp", ⟨true, 0⟩), ("b.esp", ⟨false, 1⟩)] []) :=
  ⟨(C1_round_trip_amended ⟨[], 3, false, false, true, .original, [], true⟩
      [("a.esp", ⟨true, 0⟩), ("b.esp", ⟨false, 1⟩)] rfl (by decide) (by decide) (by decide)).1,
    (C1_round_trip_amended ⟨[], 3, false, false, true, .original, [], true⟩
      [("a.esp", ⟨true, 0⟩), ("b.esp", ⟨false, 1⟩)] rfl (by decide) (by decide) (by decide)).2.1⟩
